import Mathlib

/-!
Verification of the sibench benchmark driver (Go) against its specification.

The development shallowly embeds the relevant Go functions:

* `FileConnectionBase` (file `fileconnectionbase.go`): `CreateDirectory`,
  `PutObject`, `GetObject`.  The operating-system surface (the filesystem for
  `os.MkdirAll`, the file-descriptor `Write`/`Read`/`Size` calls) is modelled by
  explicit state and by oracle traces describing what each successive system
  call returns, so that partial writes, partial reads and I/O errors are all
  expressible.
* `main.go`: `validateArguments` (including the semantics of the Go
  `regexp.FindStringSubmatch` call for the pattern `([1-9][0-9]*)([kKmM])` and of
  `strconv.Atoi` with its ignored range error) and the `Order`-building and
  report-writing parts of `startRun`.

Go `error` values are modelled as `Option String` (`none` is the `nil` error),
`uint64`/`uint16` arithmetic is `Nat` arithmetic reduced modulo `2 ^ 64` /
`2 ^ 16`, and Go `int` is `Int` (conversions to unsigned types reduce modulo
the target width).  Loops whose termination depends on the oracle trace return
`Option` results, `none` meaning the trace was exhausted with the loop still
running.
-/

namespace Sibench

/-! ## Filesystem model for `os.MkdirAll`

A path is a list of components with the innermost component first (`[]` is the
root, which always exists and is a directory).  The filesystem records which
paths are directories and which are plain files. -/

structure FS where
  dirs : List (List String)
  files : List (List String)
deriving DecidableEq, Repr

def isDir (fs : FS) : List String → Bool
  | [] => true
  | c :: rest => fs.dirs.contains (c :: rest)

def isFile (fs : FS) (p : List String) : Bool :=
  fs.files.contains p

/-- Model of Go `os.MkdirAll`: returns `nil` if the path already is a
directory, an error if some component exists as a plain file, and otherwise
creates the missing directories (parents first, so a failure can leave the
parents it already created behind, as the real call does). -/
def mkdirAll (fs : FS) : List String → FS × Option String
  | [] => (fs, none)
  | c :: rest =>
    if isDir fs (c :: rest) then (fs, none)
    else if isFile fs (c :: rest) then (fs, some "not a directory")
    else
      match mkdirAll fs rest with
      | (fs', some e) => (fs', some e)
      | (fs', none) => ({ fs' with dirs := (c :: rest) :: fs'.dirs }, none)

/-! ## FileConnectionBase -/

structure FileConnectionBase where
  root : List String
  dir : List String
deriving DecidableEq, Repr

/-- The directory `filepath.Join(conn.root, conn.dir)` in innermost-first
component form. -/
def FileConnectionBase.path (conn : FileConnectionBase) : List String :=
  (conn.root ++ conn.dir).reverse

/-- Model of `FileConnectionBase.CreateDirectory`: `os.MkdirAll` on the joined
path. -/
def CreateDirectory (conn : FileConnectionBase) (fs : FS) : FS × Option String :=
  mkdirAll fs conn.path

theorem mkdirAll_isDir (p : List String) (fs fs' : FS)
    (h : mkdirAll fs p = (fs', none)) : isDir fs' p = true := by
  cases p with
  | nil => rfl
  | cons c rest =>
    rw [mkdirAll] at h
    by_cases hd : isDir fs (c :: rest) = true
    · simp [hd] at h
      rw [← h]
      exact hd
    · simp [hd] at h
      by_cases hf : isFile fs (c :: rest) = true
      · simp [hf] at h
      · simp [hf] at h
        rcases hrec : mkdirAll fs rest with ⟨fs'', e⟩
        rw [hrec] at h
        cases e with
        | some e => simp at h
        | none =>
          simp at h
          rw [← h]
          simp [isDir, List.contains_cons]

/-- C7: `CreateDirectory` is idempotent.  If the directory already exists the
call returns `nil` and leaves the filesystem unchanged, and a second call after
a successful one returns the same state and the same `nil` result as the
first. -/
theorem createDirectory_idempotent (conn : FileConnectionBase) (fs fs' : FS) :
    (isDir fs conn.path = true → CreateDirectory conn fs = (fs, none)) ∧
    (CreateDirectory conn fs = (fs', none) → CreateDirectory conn fs' = (fs', none)) := by
  constructor
  · intro hd
    unfold CreateDirectory
    cases hp : conn.path with
    | nil => rfl
    | cons c rest =>
      rw [hp] at hd
      rw [mkdirAll]
      simp [hd]
  · intro h
    have hd := mkdirAll_isDir conn.path fs fs' h
    unfold CreateDirectory
    cases hp : conn.path with
    | nil => rfl
    | cons c rest =>
      rw [hp] at hd
      rw [mkdirAll]
      simp [hd]

/-- C7 witness: concrete instance.  On an empty filesystem the connection with
root `["r"]` and dir `["d"]` creates both directories; re-running returns the
same state, and running on a filesystem that already has the directory is a
no-op returning `nil`. -/
theorem createDirectory_idempotent_witness :
    (CreateDirectory ⟨["r"], ["d"]⟩ ⟨[["d", "r"], ["r"]], []⟩ =
      (⟨[["d", "r"], ["r"]], []⟩, none)) ∧
    (CreateDirectory ⟨["r"], ["d"]⟩ ⟨[["d", "r"], ["r"]], []⟩ =
      (⟨[["d", "r"], ["r"]], []⟩, none)) :=
  ⟨(createDirectory_idempotent ⟨["r"], ["d"]⟩ ⟨[["d", "r"], ["r"]], []⟩
      ⟨[["d", "r"], ["r"]], []⟩).1 (by decide),
   (createDirectory_idempotent ⟨["r"], ["d"]⟩ ⟨[], []⟩ ⟨[["d", "r"], ["r"]], []⟩).2
      (by decide)⟩

/-! ## FileConnectionBase.PutObject

Successive `Write` calls on the opened file descriptor are an oracle trace of
pairs `(n, err)`: the call reports `n` bytes written (capped at the length of
the slice passed in, as the `io.Writer` contract requires) and the error `err`.
The Go source is

```
for len(buffer) > 0 {
    n, err := fd.Write(buffer)
    if err == nil {
        return err
    }
    buffer = buffer[n:]
}
return nil
```

so a `nil`-error write returns immediately (returning `err`, which is `nil`)
and a failing write slides the buffer and retries.  `putLoop` returns
`some (result, total)` where `total` counts the bytes the `Write` calls
reported as written, or `none` if the trace runs out with the loop still
going. -/

def putLoop : List (Nat × Option String) → List Nat → Nat → Option (Option String × Nat)
  | _, [], written => some (none, written)
  | [], _ :: _, _ => none
  | (n, e) :: rest, b :: buffer, written =>
    match e with
    | none => some (none, written + min n (b :: buffer).length)
    | some _ => putLoop rest ((b :: buffer).drop n) (written + min n (b :: buffer).length)

/-- Model of `FileConnectionBase.PutObject`: `openErr` is the result of the
`Open` call, `writes` the oracle trace of the `Write` calls on the descriptor. -/
def filePutObject (openErr : Option String) (writes : List (Nat × Option String))
    (buffer : List Nat) : Option (Option String × Nat) :=
  match openErr with
  | some e => some (some e, 0)
  | none => putLoop writes buffer 0

/-! ## FileConnectionBase.GetObject

The opened file has a fixed byte content.  `fd.Read(buffer[start:])` calls are
an oracle trace `reads`: entry `.ok n` delivers the next `min n remaining`
bytes of the file into the buffer (a `Read` cannot deliver more bytes than the
slice it is given has room for, and `remaining` equals both the room left and
the bytes left in the file), entry `.error e` makes the call fail.  The buffer
is modelled with its length equal to its capacity, as the callers of
`GetObject` allocate it. -/

def copyInto (buffer : List Nat) (start : Nat) (bytes : List Nat) : List Nat :=
  buffer.take start ++ bytes ++ buffer.drop (start + bytes.length)

def readLoop (content : List Nat) : List (Except String Nat) → List Nat → Nat →
    Option (Option String × List Nat)
  | [], buffer, start =>
    if content.length ≤ start then some (none, buffer) else none
  | .error e :: _, buffer, start =>
    if content.length ≤ start then some (none, buffer) else some (some e, buffer)
  | .ok n :: rest, buffer, start =>
    if content.length ≤ start then some (none, buffer)
    else
      readLoop content rest
        (copyInto buffer start ((content.drop start).take (min n (content.length - start))))
        (start + min n (content.length - start))

/-- Error message built by `fmt.Errorf` for the size check in `GetObject`. -/
def wrongSizeMsg (expected got : Nat) : String :=
  "File has wrong size: expected " ++ toString expected ++ ", but got " ++ toString got

/-- Oracle description of the file `GetObject` operates on: result of the
`Open` call, result of the `fd.Size()` call, the stored content (whose length
is the size `fd.Size()` reports on success), and the `Read` trace. -/
structure GetFile where
  openErr : Option String
  sizeErr : Option String
  content : List Nat
  reads : List (Except String Nat)
deriving Repr

/-- Model of `FileConnectionBase.GetObject`: open, query the size, compare it
with `cap(buffer)`, then read until `remaining` bytes have arrived. -/
def fileGetObject (f : GetFile) (buffer : List Nat) : Option (Option String × List Nat) :=
  match f.openErr with
  | some e => some (some e, buffer)
  | none =>
    match f.sizeErr with
    | some e => some (some e, buffer)
    | none =>
      if buffer.length ≠ f.content.length then
        some (some (wrongSizeMsg buffer.length f.content.length), buffer)
      else
        readLoop f.content f.reads buffer 0

theorem copyInto_take_drop (buffer content : List Nat) (start n' : Nat)
    (hlen : buffer.length = content.length) (hstart : start < content.length)
    (hn' : n' ≤ content.length - start) :
    (copyInto buffer start ((content.drop start).take n')).take (start + n') ++
      content.drop (start + n') = buffer.take start ++ content.drop start := by
  have hA : (buffer.take start).length = start := by
    simp [List.length_take]
    omega
  have hbl : ((content.drop start).take n').length = n' := by
    simp [List.length_take, List.length_drop]
    omega
  have h1 : (copyInto buffer start ((content.drop start).take n')).take (start + n') =
      buffer.take start ++ (content.drop start).take n' := by
    unfold copyInto
    rw [List.take_append_eq_append_take]
    have hABl : (buffer.take start ++ (content.drop start).take n').length = start + n' := by
      rw [List.length_append, hA, hbl]
    rw [List.take_of_length_le (le_of_eq hABl)]
    rw [hABl]
    have e2 : start + n' - (start + n') = 0 := by omega
    rw [e2]
    simp
  rw [h1, List.append_assoc]
  have h2 : (content.drop start).take n' ++ content.drop (start + n') = content.drop start := by
    rw [← List.drop_drop]
    exact List.take_append_drop n' (content.drop start)
  rw [h2]

theorem readLoop_ok (content : List Nat) (reads : List (Except String Nat)) :
    ∀ (buffer : List Nat) (start : Nat) (out : List Nat),
      buffer.length = content.length →
      readLoop content reads buffer start = some (none, out) →
      out = buffer.take start ++ content.drop start := by
  induction reads with
  | nil =>
    intro buffer start out hlen h
    simp only [readLoop] at h
    by_cases hs : content.length ≤ start
    · simp [hs] at h
      rw [← h, List.drop_eq_nil_of_le hs, List.take_of_length_le (by omega), List.append_nil]
    · simp [hs] at h
  | cons r rest ih =>
    intro buffer start out hlen h
    cases r with
    | error e =>
      simp only [readLoop] at h
      by_cases hs : content.length ≤ start
      · simp [hs] at h
        rw [← h, List.drop_eq_nil_of_le hs, List.take_of_length_le (by omega), List.append_nil]
      · simp [hs] at h
    | ok n =>
      simp only [readLoop] at h
      by_cases hs : content.length ≤ start
      · simp [hs] at h
        rw [← h, List.drop_eq_nil_of_le hs, List.take_of_length_le (by omega), List.append_nil]
      · simp only [if_neg hs] at h
        have hcl : (copyInto buffer start
            ((content.drop start).take (min n (content.length - start)))).length =
            content.length := by
          simp [copyInto, List.length_take, List.length_drop]
          omega
        have hrec := ih _ _ _ hcl h
        rw [hrec]
        exact copyInto_take_drop buffer content start (min n (content.length - start)) hlen
          (by omega) (by omega)

/-- C1: evaluation of `PutObject` at a failing input.  With a two-byte buffer
and a first `Write` call that accepts only one byte and returns a `nil` error,
`PutObject` returns `nil` having written a single byte: the guard
`if err == nil { return err }` makes any successful partial write terminate the
drain loop with a `nil` result, contradicting the contract that exactly
`len(buffer)` bytes are written before `nil` is returned. -/
theorem putObject_partial_write_returns_nil :
    filePutObject none [(1, none)] [7, 7] = some (none, 1) ∧ (1 : Nat) ≠ [7, 7].length := by
  decide

/-- C2: `GetObject` fails whenever the stored size differs from the buffer
capacity (whatever error path is taken, the result is never `nil`), and when
the sizes agree a `nil` result is only produced once the whole stored content
has been copied into the buffer. -/
theorem getObject_size_check_and_fill (f : GetFile) (buffer : List Nat) :
    (f.content.length ≠ buffer.length →
      ∀ r out, fileGetObject f buffer = some (r, out) → r ≠ none) ∧
    (f.content.length = buffer.length →
      ∀ out, fileGetObject f buffer = some (none, out) → out = f.content) := by
  constructor
  · intro hne r out h
    unfold fileGetObject at h
    cases ho : f.openErr with
    | some e =>
      rw [ho] at h
      simp at h
      rw [← h.1]
      simp
    | none =>
      rw [ho] at h
      cases hsz : f.sizeErr with
      | some e =>
        rw [hsz] at h
        simp at h
        rw [← h.1]
        simp
      | none =>
        rw [hsz] at h
        rw [if_pos (fun hb => hne hb.symm)] at h
        simp at h
        rw [← h.1]
        simp
  · intro heq out h
    unfold fileGetObject at h
    cases ho : f.openErr with
    | some e =>
      rw [ho] at h
      simp at h
    | none =>
      rw [ho] at h
      cases hsz : f.sizeErr with
      | some e =>
        rw [hsz] at h
        simp at h
      | none =>
        rw [hsz] at h
        rw [if_neg (not_not_intro heq.symm)] at h
        have := readLoop_ok f.content f.reads buffer 0 out heq.symm h
        simpa using this

/-- C2 witness: a three-byte file read in chunks of two and one bytes fills the
buffer with exactly the stored content, and a two-byte file offered a
three-byte buffer produces a non-`nil` error. -/
theorem getObject_size_check_and_fill_witness :
    ([3, 1, 4] : List Nat) = (GetFile.mk none none [3, 1, 4] [.ok 2, .ok 1]).content ∧
    (some (wrongSizeMsg 3 2) : Option String) ≠ none :=
  ⟨(getObject_size_check_and_fill (GetFile.mk none none [3, 1, 4] [.ok 2, .ok 1])
      [0, 0, 0]).2 (by decide) [3, 1, 4] (by decide),
   (getObject_size_check_and_fill (GetFile.mk none none [3, 1] [.ok 2]) [0, 0, 0]).1
      (by decide) (some (wrongSizeMsg 3 2)) [0, 0, 0] (by decide)⟩

/-- C8: when `GetObject` fails because the file cannot be opened or because the
stored size differs from the buffer capacity, the caller's buffer is returned
untouched: the size check precedes every read into the buffer. -/
theorem getObject_error_leaves_buffer (f : GetFile) (buffer : List Nat) :
    (∀ e, f.openErr = some e → fileGetObject f buffer = some (some e, buffer)) ∧
    (f.openErr = none → f.sizeErr = none → buffer.length ≠ f.content.length →
      fileGetObject f buffer =
        some (some (wrongSizeMsg buffer.length f.content.length), buffer)) := by
  constructor
  · intro e he
    simp [fileGetObject, he]
  · intro h1 h2 h3
    simp [fileGetObject, h1, h2, h3]

/-- C8 witness: concrete open-failure and size-mismatch calls both return the
buffer unmodified. -/
theorem getObject_error_leaves_buffer_witness :
    fileGetObject (GetFile.mk (some "boom") none [] []) [9] = some (some "boom", [9]) ∧
    fileGetObject (GetFile.mk none none [1, 2] []) [9] =
      some (some (wrongSizeMsg 1 2), [9]) :=
  ⟨(getObject_error_leaves_buffer (GetFile.mk (some "boom") none [] []) [9]).1 "boom" rfl,
   (getObject_error_leaves_buffer (GetFile.mk none none [1, 2] []) [9]).2 rfl rfl
      (by decide)⟩

/-! ## main.go: argument validation

`validateArguments` checks the two port numbers and then matches the size
string against the Go regular expression `([1-9][0-9]*)([kKmM])` with
`FindStringSubmatch`.  The pattern is unanchored and the engine returns the
leftmost match; because the character after a greedy digit run must be one of
`kKmM` (not a digit), the match starting at a position is uniquely the maximal
digit run there followed by a unit letter, so the behaviour of the engine is the
left-to-right scan `findSizeMatch` below. -/

def isDigitChar (c : Char) : Bool :=
  decide ('0' ≤ c ∧ c ≤ '9')

def isNonzeroDigitChar (c : Char) : Bool :=
  decide ('1' ≤ c ∧ c ≤ '9')

def isUnitChar (c : Char) : Bool :=
  decide (c = 'k' ∨ c = 'K' ∨ c = 'm' ∨ c = 'M')

/-- Leftmost match of `([1-9][0-9]*)([kKmM])`: the two capture groups, or
`none` when the pattern does not occur. -/
def findSizeMatch : List Char → Option (List Char × Char)
  | [] => none
  | c :: rest =>
    if isNonzeroDigitChar c then
      match (c :: rest).dropWhile isDigitChar with
      | u :: _ =>
        if isUnitChar u then some ((c :: rest).takeWhile isDigitChar, u)
        else findSizeMatch rest
      | [] => none
    else findSizeMatch rest

def digitVal (c : Char) : Nat := c.toNat - 48

def digitsToNat (digits : List Char) : Nat :=
  digits.foldl (fun acc c => acc * 10 + digitVal c) 0

/-- Model of `strconv.Atoi` applied to the first capture group (a non-empty
decimal digit string) on a 64-bit platform: the parsed value, clamped at
`math.MaxInt64` on overflow.  `validateArguments` ignores the accompanying
range error, so only the clamped value matters. -/
def atoiDigits (digits : List Char) : Nat :=
  min (digitsToNat digits) (2 ^ 63 - 1)

/-- The `Arguments` struct of main.go.  Go `int` fields are `Int`, the
`uint64` field `SizeInBytes` is a `Nat` kept below `2 ^ 64`, and the size
string is its character list. -/
structure Arguments where
  Server : Bool
  S3 : Bool
  Rados : Bool
  Run : Bool
  Verbose : Bool
  Port : Int
  Size : List Char
  Objects : Int
  Servers : String
  RunTime : Int
  RampUp : Int
  RampDown : Int
  JsonOutput : String
  Targets : List String
  S3AccessKey : String
  S3SecretKey : String
  S3Bucket : String
  S3Port : Int
  CephPool : String
  CephUser : String
  CephKey : String
  Bucket : String
  SizeInBytes : Nat
deriving DecidableEq, Repr

/-- Model of `validateArguments`: port range checks, then the size regex; on
success the synthesized `SizeInBytes` field is filled in (`uint64(val) * 1024`,
times another `1024` when the unit compares case-insensitively equal to
`"m"`). -/
def validateArguments (args : Arguments) : Except String Arguments :=
  if args.Port < 0 ∨ args.Port > 65535 then
    .error "Port not in range"
  else if args.S3Port < 0 ∨ args.S3Port > 65535 then
    .error "S3 Port not in range"
  else
    match findSizeMatch args.Size with
    | none => .error "Bad size specifier"
    | some (digits, u) =>
      let val := atoiDigits digits
      let sizeK := val * 1024 % 2 ^ 64
      .ok { args with SizeInBytes := if u = 'm' ∨ u = 'M' then sizeK * 1024 % 2 ^ 64 else sizeK }

/-! ## main.go: startRun -/

/-- The `Order` struct as populated by `startRun` (fields not assigned there
keep their Go zero value). -/
structure Order where
  JobId : Nat
  ObjectSize : Nat
  Seed : Nat
  GeneratorType : String
  RangeStart : Nat
  RangeEnd : Nat
  Targets : List String
  ConnectionType : String
  Bucket : String
  Credentials : List (String × String)
  Port : Nat
deriving DecidableEq, Repr

/-- Go conversion `uint64(n)` of a 64-bit `int`. -/
def uint64OfInt (n : Int) : Nat := (n % 2 ^ 64).toNat

/-- Go conversion `uint16(n)` of a 64-bit `int`. -/
def uint16OfInt (n : Int) : Nat := (n % 2 ^ 16).toNat

/-- The `Order` built by `startRun` from validated arguments; `seed` stands
for the ambient `time.Now().Unix()` value. -/
def startRunOrder (args : Arguments) (seed : Int) : Order :=
  { JobId := 1
    ObjectSize := args.SizeInBytes
    Seed := uint64OfInt seed
    GeneratorType := "prng"
    RangeStart := 0
    RangeEnd := uint64OfInt args.Objects
    Targets := args.Targets
    ConnectionType := if args.S3 then "s3" else "rados"
    Bucket := if args.S3 then args.S3Bucket else args.CephPool
    Credentials :=
      if args.S3 then [("access_key", args.S3AccessKey), ("secret_key", args.S3SecretKey)]
      else [("username", args.CephUser), ("key", args.CephKey)]
    Port := if args.S3 then uint16OfInt args.S3Port else 0 }

/-- Observable effects of the tail of `startRun`, after `m.Run(&j)` has
returned `runErr` and the report has been serialized to `reportJson`. -/
inductive RunEffect where
  | printError (msg : String)
  | writeFile (path : String) (contents : String)
  | printDone
deriving DecidableEq, Repr

/-- The effect sequence of the tail of `startRun`: a `Run` error is printed
(but does not abort), the JSON report is written whenever an output file is
configured, and `Done` is printed. -/
def startRunEffects (args : Arguments) (runErr : Option String) (reportJson : String) :
    List RunEffect :=
  (match runErr with
   | some e => [RunEffect.printError e]
   | none => []) ++
  (if args.JsonOutput ≠ "" then [RunEffect.writeFile args.JsonOutput reportJson] else []) ++
  [RunEffect.printDone]

/-- Arguments as the docopt defaults produce them for a `rados run` invocation
(before validation fills `SizeInBytes`). -/
def argsBase : Arguments :=
  { Server := false
    S3 := false
    Rados := true
    Run := true
    Verbose := false
    Port := 5150
    Size := ['1', 'M']
    Objects := 1000
    Servers := "localhost"
    RunTime := 30
    RampUp := 5
    RampDown := 2
    JsonOutput := ""
    Targets := []
    S3AccessKey := ""
    S3SecretKey := ""
    S3Bucket := "sibench"
    S3Port := 7480
    CephPool := "sibench"
    CephUser := "admin"
    CephKey := ""
    Bucket := ""
    SizeInBytes := 0 }

/-! ## Specification-side description of the size pattern

`matchAtHead t` says the pattern `([1-9][0-9]*)([kKmM])` matches at the very
start of `t`; `hasSizePattern s` says it matches somewhere in `s`.  These are
written from the wording of the claim (a substring of digits starting `1-9`
followed by a unit letter) and are related to the scanner `findSizeMatch`
by the lemmas below. -/

def matchAtHead (t : List Char) : Prop :=
  ∃ digits u post, t = digits ++ u :: post ∧ digits ≠ [] ∧
    (∀ c ∈ digits, isDigitChar c = true) ∧
    isNonzeroDigitChar digits.headI = true ∧ isUnitChar u = true

def hasSizePattern (s : List Char) : Prop :=
  ∃ q, matchAtHead (s.drop q)

theorem unit_not_digit (c : Char) (h : isUnitChar c = true) : isDigitChar c = false := by
  simp only [isUnitChar, decide_eq_true_eq] at h
  rcases h with h | h | h | h <;> subst h <;> decide

theorem nonzero_digit_is_digit (c : Char) (h : isNonzeroDigitChar c = true) :
    isDigitChar c = true := by
  simp only [isNonzeroDigitChar, decide_eq_true_eq] at h
  simp only [isDigitChar, decide_eq_true_eq]
  exact ⟨le_trans (by decide) h.1, h.2⟩

theorem takeWhile_all (p : Char → Bool) (l : List Char) :
    ∀ c ∈ l.takeWhile p, p c = true := by
  induction l with
  | nil => intro c hc; simp at hc
  | cons a l ih =>
    intro c hc
    by_cases ha : p a
    · rw [List.takeWhile_cons_of_pos ha] at hc
      rcases List.mem_cons.1 hc with h | h
      · subst h; exact ha
      · exact ih c h
    · rw [List.takeWhile_cons_of_neg ha] at hc
      simp at hc

theorem splitAt_first_nondigit (p : Char → Bool) (a : List Char) (u : Char) (b : List Char)
    (ha : ∀ c ∈ a, p c = true) (hu : p u = false) :
    (a ++ u :: b).takeWhile p = a ∧ (a ++ u :: b).dropWhile p = u :: b := by
  induction a with
  | nil =>
    have hu' : ¬ p u = true := by simp [hu]
    constructor
    · simp [List.takeWhile_cons_of_neg hu']
    · simp [List.dropWhile_cons_of_neg hu']
  | cons c a ih =>
    have hc : p c = true := ha c (by simp)
    have ih' := ih (fun x hx => ha x (by simp [hx]))
    constructor
    · simp only [List.cons_append, List.takeWhile_cons_of_pos hc, ih'.1]
    · simp only [List.cons_append, List.dropWhile_cons_of_pos hc, ih'.2]

theorem all_digits_of_dropWhile_nil (p : Char → Bool) (l : List Char)
    (h : l.dropWhile p = []) : ∀ c ∈ l, p c = true := by
  induction l with
  | nil => intro c hc; simp at hc
  | cons a l ih =>
    by_cases ha : p a
    · rw [List.dropWhile_cons_of_pos ha] at h
      intro c hc
      rcases List.mem_cons.1 hc with hc | hc
      · subst hc; exact ha
      · exact ih h c hc
    · rw [List.dropWhile_cons_of_neg ha] at h
      simp at h

theorem findSizeMatch_none_no_pattern (s : List Char) :
    findSizeMatch s = none → ∀ q, ¬ matchAtHead (s.drop q) := by
  induction s with
  | nil =>
    intro _ q hm
    rw [List.drop_nil] at hm
    rcases hm with ⟨digits, u, post, ht, hd, _, _, _⟩
    cases digits <;> simp at ht
  | cons c rest ih =>
    intro h q
    simp only [findSizeMatch] at h
    by_cases hc : isNonzeroDigitChar c = true
    · rw [if_pos hc] at h
      rcases hdw : (c :: rest).dropWhile isDigitChar with _ | ⟨u, tail⟩
      · intro hm
        have hall := all_digits_of_dropWhile_nil isDigitChar (c :: rest) hdw
        rcases hm with ⟨digits, u, post, ht, hd, hdig, hh, hu⟩
        have humem : u ∈ (c :: rest) := by
          refine List.mem_of_mem_drop (n := q) ?_
          rw [ht]
          simp
        have hud := hall u humem
        rw [unit_not_digit u hu] at hud
        exact Bool.noConfusion hud
      · rw [hdw] at h
        dsimp only at h
        by_cases hu : isUnitChar u = true
        · rw [if_pos hu] at h
          exact absurd h (by simp)
        · rw [if_neg hu] at h
          cases q with
          | zero =>
            intro hm
            rcases hm with ⟨digits, u', post, ht, hd, hdig, hh, hu'⟩
            rw [List.drop_zero] at ht
            have hsplit := splitAt_first_nondigit isDigitChar digits u' post hdig
              (unit_not_digit u' hu')
            rw [ht] at hdw
            rw [hsplit.2] at hdw
            rw [(List.cons.injEq _ _ _ _ ▸ hdw : u' = u ∧ post = tail).1] at hu'
            exact hu hu'
          | succ q' =>
            have := ih h q'
            simpa using this
    · rw [if_neg hc] at h
      cases q with
      | zero =>
        intro hm
        rcases hm with ⟨digits, u', post, ht, hd, hdig, hh, hu'⟩
        rw [List.drop_zero] at ht
        cases digits with
        | nil => exact hd rfl
        | cons d ds =>
          have hdc : d = c := by
            have := (List.cons.injEq _ _ _ _ ▸ ht.symm : d = c ∧ _)
            exact this.1
          rw [List.headI, hdc] at hh
          exact hc hh
      | succ q' =>
        have := ih h q'
        simpa using this

theorem findSizeMatch_some_pattern (s : List Char) (digits : List Char) (u : Char) :
    findSizeMatch s = some (digits, u) → hasSizePattern s := by
  induction s with
  | nil => intro h; exact absurd h (by simp [findSizeMatch])
  | cons c rest ih =>
    intro h
    simp only [findSizeMatch] at h
    by_cases hc : isNonzeroDigitChar c = true
    · rw [if_pos hc] at h
      rcases hdw : (c :: rest).dropWhile isDigitChar with _ | ⟨u', tail⟩
      · rw [hdw] at h
        exact absurd h (by simp)
      · rw [hdw] at h
        dsimp only at h
        by_cases hu' : isUnitChar u' = true
        · refine ⟨0, ?_⟩
          rw [List.drop_zero]
          refine ⟨(c :: rest).takeWhile isDigitChar, u', tail, ?_, ?_, ?_, ?_, hu'⟩
          · rw [← hdw]
            exact (List.takeWhile_append_dropWhile _ _).symm
          · rw [List.takeWhile_cons_of_pos (nonzero_digit_is_digit c hc)]
            simp
          · exact takeWhile_all _ _
          · rw [List.takeWhile_cons_of_pos (nonzero_digit_is_digit c hc)]
            simpa using hc
        · rw [if_neg hu'] at h
          rcases ih h with ⟨q, hq⟩
          exact ⟨q + 1, by simpa using hq⟩
    · rw [if_neg hc] at h
      rcases ih h with ⟨q, hq⟩
      exact ⟨q + 1, by simpa using hq⟩

theorem findSizeMatch_eq_of_first (pre : List Char) :
    ∀ (s digits : List Char) (u : Char) (post : List Char),
      s = pre ++ digits ++ u :: post → digits ≠ [] →
      (∀ c ∈ digits, isDigitChar c = true) → isNonzeroDigitChar digits.headI = true →
      isUnitChar u = true → (∀ q, q < pre.length → ¬ matchAtHead (s.drop q)) →
      findSizeMatch s = some (digits, u) := by
  induction pre with
  | nil =>
    intro s digits u post hs hd hall hh hu _
    subst hs
    cases digits with
    | nil => exact absurd rfl hd
    | cons d ds =>
      have hsplit := splitAt_first_nondigit isDigitChar (d :: ds) u post hall
        (unit_not_digit u hu)
      simp only [List.nil_append, List.cons_append] at hsplit ⊢
      simp only [findSizeMatch]
      rw [if_pos (by simpa using hh)]
      rw [hsplit.2]
      dsimp only
      rw [if_pos hu, hsplit.1]
  | cons c pre' ih =>
    intro s digits u post hs hd hall hh hu hfirst
    subst hs
    simp only [List.cons_append] at hfirst ⊢
    have hfirst' : ∀ q, q < pre'.length →
        ¬ matchAtHead ((pre' ++ digits ++ u :: post).drop q) := by
      intro q hq
      have := hfirst (q + 1) (by simp [Nat.succ_lt_succ hq])
      simpa using this
    have hih := ih (pre' ++ digits ++ u :: post) digits u post rfl hd hall hh hu hfirst'
    simp only [findSizeMatch]
    by_cases hc : isNonzeroDigitChar c = true
    · rw [if_pos hc]
      rcases hdw : (c :: (pre' ++ digits ++ u :: post)).dropWhile isDigitChar with _ | ⟨u', tail⟩
      · exfalso
        have hall2 := all_digits_of_dropWhile_nil isDigitChar _ hdw
        have humem : u ∈ c :: (pre' ++ digits ++ u :: post) := by simp
        have hud := hall2 u humem
        rw [unit_not_digit u hu] at hud
        exact Bool.noConfusion hud
      · by_cases hu' : isUnitChar u' = true
        · exfalso
          apply hfirst 0 (by simp)
          rw [List.drop_zero]
          refine ⟨(c :: (pre' ++ digits ++ u :: post)).takeWhile isDigitChar, u', tail,
            ?_, ?_, ?_, ?_, hu'⟩
          · rw [← hdw]
            exact (List.takeWhile_append_dropWhile _ _).symm
          · rw [List.takeWhile_cons_of_pos (nonzero_digit_is_digit c hc)]
            simp
          · exact takeWhile_all _ _
          · rw [List.takeWhile_cons_of_pos (nonzero_digit_is_digit c hc)]
            simpa using hc
        · dsimp only
          rw [if_neg hu']
          exact hih
    · rw [if_neg hc]
      exact hih

deriving instance DecidableEq for Except

theorem validateArguments_ok_objects (args args' : Arguments)
    (h : validateArguments args = .ok args') : args'.Objects = args.Objects := by
  unfold validateArguments at h
  by_cases h1 : args.Port < 0 ∨ args.Port > 65535
  · rw [if_pos h1] at h
    exact absurd h (by simp)
  · rw [if_neg h1] at h
    by_cases h2 : args.S3Port < 0 ∨ args.S3Port > 65535
    · rw [if_pos h2] at h
      exact absurd h (by simp)
    · rw [if_neg h2] at h
      rcases hm : findSizeMatch args.Size with _ | ⟨digits, u⟩
      · rw [hm] at h
        exact absurd h (by simp)
      · rw [hm] at h
        dsimp only at h
        simp only [Except.ok.injEq] at h
        rw [← h]

/-- C9 amended: `validateArguments` accepts exactly the size strings containing
(anywhere) one or more digits starting with `1-9` followed by one of `kKmM`,
and computes `SizeInBytes` from the first (leftmost) such match as the matched
number — clamped to `MaxInt64` by `Atoi`, whose range error is discarded —
times `1024` for `k`/`K` or `1048576` for `m`/`M`, reduced modulo `2 ^ 64`. -/
theorem validateArguments_size_characterization (args : Arguments)
    (hport : ¬ (args.Port < 0 ∨ args.Port > 65535))
    (hs3p : ¬ (args.S3Port < 0 ∨ args.S3Port > 65535)) :
    ((∃ r, validateArguments args = .ok r) ↔ hasSizePattern args.Size) ∧
    (∀ pre digits u post,
      args.Size = pre ++ digits ++ u :: post → digits ≠ [] →
      (∀ c ∈ digits, isDigitChar c = true) → isNonzeroDigitChar digits.headI = true →
      isUnitChar u = true →
      (∀ q, q < pre.length → ¬ matchAtHead (args.Size.drop q)) →
      validateArguments args = .ok { args with SizeInBytes :=
        (if u = 'm' ∨ u = 'M' then atoiDigits digits * 1024 % 2 ^ 64 * 1024 % 2 ^ 64
         else atoiDigits digits * 1024 % 2 ^ 64) }) := by
  constructor
  · constructor
    · rintro ⟨r, hr⟩
      unfold validateArguments at hr
      rw [if_neg hport, if_neg hs3p] at hr
      rcases hm : findSizeMatch args.Size with _ | ⟨digits, u⟩
      · rw [hm] at hr
        exact absurd hr (by simp)
      · exact findSizeMatch_some_pattern args.Size digits u hm
    · intro hp
      rcases hm : findSizeMatch args.Size with _ | ⟨digits, u⟩
      · exfalso
        rcases hp with ⟨q, hq⟩
        exact findSizeMatch_none_no_pattern args.Size hm q hq
      · refine ⟨{ args with SizeInBytes :=
          (if u = 'm' ∨ u = 'M' then atoiDigits digits * 1024 % 2 ^ 64 * 1024 % 2 ^ 64
           else atoiDigits digits * 1024 % 2 ^ 64) }, ?_⟩
        unfold validateArguments
        rw [if_neg hport, if_neg hs3p, hm]
  · intro pre digits u post hs hd hall hh hu hfirst
    have hm := findSizeMatch_eq_of_first pre args.Size digits u post hs hd hall hh hu hfirst
    unfold validateArguments
    rw [if_neg hport, if_neg hs3p, hm]

def args10KB : Arguments := { argsBase with Size := ['1', '0', 'K', 'B'] }

/-- C9 witness: the example `"10KB"` named by the claim is accepted (the trailing `B`
is ignored by the unanchored pattern) and yields `SizeInBytes = 10 * 1024`. -/
theorem validateArguments_size_characterization_witness :
    validateArguments args10KB = .ok { args10KB with SizeInBytes := 10240 } :=
  ((validateArguments_size_characterization args10KB (by decide) (by decide)).2
    [] ['1', '0'] 'K' ['B'] rfl (by decide) (by decide) (by decide) (by decide)
    (fun q hq => absurd hq (by simp))).trans (by decide)

def argsClampSize : Arguments := { argsBase with Size :=
  ['9', '9', '9', '9', '9', '9', '9', '9', '9', '9', '9', '9', '9', '9', '9', '9', '9', '9',
   '9', '9', 'k'] }

/-- C9 counterexample: for the size string `"99999999999999999999k"` the first
matched number is `99999999999999999999`, but `strconv.Atoi` clamps it to
`MaxInt64 = 2 ^ 63 - 1` (returning a range error that `validateArguments`
discards), so the stored `SizeInBytes` is `(2 ^ 63 - 1) * 1024 mod 2 ^ 64 =
18446744073709550592` — not the matched number times `1024`, under either the
exact or the modulo-`2 ^ 64` reading of the claim. -/
theorem validateArguments_atoi_clamp_counterexample :
    digitsToNat argsClampSize.Size.dropLast = 99999999999999999999 ∧
    findSizeMatch argsClampSize.Size = some (argsClampSize.Size.dropLast, 'k') ∧
    validateArguments argsClampSize =
      .ok { argsClampSize with SizeInBytes := 18446744073709550592 } ∧
    (18446744073709550592 : Nat) ≠ 99999999999999999999 * 1024 ∧
    (18446744073709550592 : Nat) ≠ 99999999999999999999 * 1024 % 2 ^ 64 := by
  refine ⟨by decide, by decide, by decide, by decide, by decide⟩

def argsZeroObjects : Arguments := { argsBase with Objects := 0 }

/-- C3 counterexample: `--objects 0` passes `validateArguments` (which never
inspects `Objects`), and the Order built by `startRun` then has
`rangeStart = rangeEnd = 0`, violating the claimed invariant
`rangeEnd > rangeStart`. -/
theorem order_range_zero_objects_counterexample :
    validateArguments argsZeroObjects = .ok { argsZeroObjects with SizeInBytes := 1048576 } ∧
    ¬ ((startRunOrder { argsZeroObjects with SizeInBytes := 1048576 } 0).RangeStart <
        (startRunOrder { argsZeroObjects with SizeInBytes := 1048576 } 0).RangeEnd) := by
  refine ⟨by decide, by decide⟩

/-- C3 amended: every Order built by `startRun` from validated arguments whose
object count is a non-zero 64-bit `int` satisfies `rangeStart < rangeEnd`; with
an object count of zero the Order instead has `rangeStart = rangeEnd = 0`. -/
theorem order_range_nonempty_of_objects_ne_zero (args args' : Arguments) (seed : Int)
    (h : validateArguments args = .ok args') (hnz : args.Objects ≠ 0)
    (hlo : -(2 ^ 63) ≤ args.Objects) (hhi : args.Objects < 2 ^ 63) :
    (startRunOrder args' seed).RangeStart < (startRunOrder args' seed).RangeEnd := by
  have hobj := validateArguments_ok_objects args args' h
  simp only [startRunOrder, uint64OfInt, hobj]
  omega

/-- C3 amended witness: the default argument set (1000 objects) produces an
Order with a non-empty range. -/
theorem order_range_nonempty_of_objects_ne_zero_witness :
    (startRunOrder { argsBase with SizeInBytes := 1048576 } 0).RangeStart <
      (startRunOrder { argsBase with SizeInBytes := 1048576 } 0).RangeEnd :=
  order_range_nonempty_of_objects_ne_zero argsBase { argsBase with SizeInBytes := 1048576 } 0
    (by decide) (by decide) (by decide) (by decide)

/-- C4 counterexample: two successive runs (different arguments and different
clock seeds) are both assigned jobId 1 — equal, not distinct or increasing. -/
theorem jobId_not_increasing_counterexample :
    (startRunOrder { argsBase with SizeInBytes := 1048576 } 100).JobId =
      (startRunOrder { argsBase with Objects := 5, SizeInBytes := 2048 } 200).JobId ∧
    (startRunOrder { argsBase with SizeInBytes := 1048576 } 100).JobId = 1 := by
  refine ⟨rfl, rfl⟩

/-- C4 amended: `startRun` assigns the constant jobId 1 to every Order, so
successive runs of the same manager binary share the same jobId instead of
receiving monotonically increasing ones. -/
theorem jobId_constant_one (args : Arguments) (seed : Int) :
    (startRunOrder args seed).JobId = 1 :=
  rfl

def argsOverflowSize : Arguments := { argsBase with Size :=
  ['1', '8', '0', '1', '4', '3', '9', '8', '5', '0', '9', '4', '8', '1', '9', '8', '4', 'k'] }

/-- C5: evaluation at a failing input.  The size string `"18014398509481984k"`
(`2 ^ 54` kibibytes) passes `validateArguments`, but `uint64(val) * 1024`
overflows to exactly `0`, so the Order built by `startRun` has
`objectSize = 0`, violating the claimed invariant `objectSize > 0`. -/
theorem sizeInBytes_overflow_zero :
    validateArguments argsOverflowSize = .ok { argsOverflowSize with SizeInBytes := 0 } ∧
    (startRunOrder { argsOverflowSize with SizeInBytes := 0 } 0).ObjectSize = 0 := by
  refine ⟨by decide, rfl⟩

/-- C6: when `Manager.Run` returns an error, the tail of `startRun` still
prints the error and still writes the serialized report to the configured JSON
output file: the failure is reported explicitly rather than by omitting the
report. -/
theorem startRun_writes_report_on_run_error (args : Arguments) (runErr : Option String)
    (reportJson : String) (e : String) (he : runErr = some e) (hj : args.JsonOutput ≠ "") :
    RunEffect.printError e ∈ startRunEffects args runErr reportJson ∧
    RunEffect.writeFile args.JsonOutput reportJson ∈ startRunEffects args runErr reportJson := by
  subst he
  constructor
  · simp [startRunEffects]
  · simp [startRunEffects, hj]

/-- C6 witness: a failed run with a configured output file both prints the
error and writes the report. -/
theorem startRun_writes_report_on_run_error_witness :
    RunEffect.printError "network down" ∈
      startRunEffects { argsBase with JsonOutput := "o.json" } (some "network down") "report" ∧
    RunEffect.writeFile "o.json" "report" ∈
      startRunEffects { argsBase with JsonOutput := "o.json" } (some "network down") "report" :=
  startRun_writes_report_on_run_error { argsBase with JsonOutput := "o.json" }
    (some "network down") "report" "network down" rfl (by decide)

/-- C10: the Order built by `startRun` has connection type `"s3"` with
credential keys exactly `access_key` and `secret_key` when `args.S3` is set,
and otherwise connection type `"rados"` with credential keys exactly
`username` and `key` and the Port field left at its zero value. -/
theorem startRun_connection_credentials (args : Arguments) (seed : Int) :
    (args.S3 = true →
      (startRunOrder args seed).ConnectionType = "s3" ∧
      (startRunOrder args seed).Credentials.map Prod.fst = ["access_key", "secret_key"]) ∧
    (args.S3 = false →
      (startRunOrder args seed).ConnectionType = "rados" ∧
      (startRunOrder args seed).Credentials.map Prod.fst = ["username", "key"] ∧
      (startRunOrder args seed).Port = 0) := by
  constructor <;> intro h <;> simp [startRunOrder, h]

/-- C10 witness: concrete S3 and rados argument sets produce the two shapes. -/
theorem startRun_connection_credentials_witness :
    ((startRunOrder { argsBase with S3 := true } 0).ConnectionType = "s3" ∧
      (startRunOrder { argsBase with S3 := true } 0).Credentials.map Prod.fst =
        ["access_key", "secret_key"]) ∧
    ((startRunOrder argsBase 0).ConnectionType = "rados" ∧
      (startRunOrder argsBase 0).Credentials.map Prod.fst = ["username", "key"] ∧
      (startRunOrder argsBase 0).Port = 0) :=
  ⟨(startRun_connection_credentials { argsBase with S3 := true } 0).1 rfl,
   (startRun_connection_credentials argsBase 0).2 rfl⟩

end Sibench
